import Mathlib

/-!
Shallow embedding of `src/csv_to_excel_converter.py` (a CSV-to-Excel
converter built on pandas) and proofs about its normalization pipeline,
rename-specification parsing, and CLI driver.
-/

namespace CsvToExcel

/-! ## Python string primitives -/

/-- Whitespace characters recognised by Python's `str.strip` (ASCII range). -/
def isPySpace (c : Char) : Bool :=
  c == ' ' || c == '\t' || c == '\n' || c == '\r' || c == '\x0b' || c == '\x0c'

/-- Strip leading and trailing whitespace from a character list (both ends). -/
def stripL (l : List Char) : List Char :=
  ((l.dropWhile isPySpace).reverse.dropWhile isPySpace).reverse

/-- Python `str.strip()`. -/
def pyStrip (s : String) : String := String.mk (stripL s.data)

/-- ASCII lowercasing of a single character, as Python `str.lower` acts on
ASCII letters (the spec limits cleaning to ASCII lowercasing). -/
def lowerChar (c : Char) : Char :=
  if 'A' ≤ c ∧ c ≤ 'Z' then Char.ofNat (c.toNat + 32) else c

/-- Python `str.lower()` on ASCII data. -/
def pyLower (s : String) : String := String.mk (s.data.map lowerChar)

/-- Replace one character if it is a space, as in `str.replace(" ", "_")`. -/
def replaceSpaceChar (c : Char) : Char := if c == ' ' then '_' else c

/-- Python `str.replace(" ", "_")` (single-character replacement is a map). -/
def replaceSpaces (s : String) : String := String.mk (s.data.map replaceSpaceChar)

/-- Column-name cleaning, source lines 18-22: strip, then lower, then
replace spaces by underscores. -/
def cleanName (s : String) : String := replaceSpaces (pyLower (pyStrip s))

/-- Per-character action of the lower-then-replace stages of `cleanName`. -/
def cleanChar (c : Char) : Char := replaceSpaceChar (lowerChar c)

/-! ## Character-level lemmas -/

theorem toNat_ofNat_valid (n : Nat) (h : Nat.isValidChar n) :
    (Char.ofNat n).toNat = n := by
  simp [Char.ofNat, h, Char.ofNatAux, Char.toNat, UInt32.toNat]

theorem char_le_iff (a b : Char) : a ≤ b ↔ a.toNat ≤ b.toNat := Iff.rfl

theorem isPySpace_eq_false_of_toNat (c : Char) (h : 64 < c.toNat) :
    isPySpace c = false := by
  simp only [isPySpace, Bool.or_eq_false_iff, beq_eq_false_iff_ne, ne_eq]
  refine ⟨⟨⟨⟨⟨?_, ?_⟩, ?_⟩, ?_⟩, ?_⟩, ?_⟩ <;>
    · rintro rfl
      exact absurd h (by decide)

theorem lowerChar_toNat_of_upper (c : Char) (h : 'A' ≤ c ∧ c ≤ 'Z') :
    (lowerChar c).toNat = c.toNat + 32 := by
  have h65 : 65 ≤ c.toNat := (char_le_iff _ _).mp h.1
  have h90 : c.toNat ≤ 90 := (char_le_iff _ _).mp h.2
  rw [lowerChar, if_pos h]
  exact toNat_ofNat_valid _ (Or.inl (by omega))

theorem lowerChar_idem (c : Char) : lowerChar (lowerChar c) = lowerChar c := by
  by_cases h : 'A' ≤ c ∧ c ≤ 'Z'
  · have htn := lowerChar_toNat_of_upper c h
    have h90 : c.toNat ≤ 90 := (char_le_iff _ _).mp h.2
    have : ¬ ('A' ≤ lowerChar c ∧ lowerChar c ≤ 'Z') := by
      rintro ⟨-, h2⟩
      have := (char_le_iff _ _).mp h2
      rw [htn] at this
      have h65 : 65 ≤ c.toNat := (char_le_iff _ _).mp h.1
      have : (90 : Nat) ≥ c.toNat + 32 := by
        simpa using this
      omega
    conv_lhs => rw [lowerChar, if_neg this]
  · have hc : lowerChar c = c := by rw [lowerChar, if_neg h]
    rw [hc]
    exact hc

theorem isPySpace_lowerChar (c : Char) : isPySpace (lowerChar c) = isPySpace c := by
  by_cases h : 'A' ≤ c ∧ c ≤ 'Z'
  · have h65 : 65 ≤ c.toNat := (char_le_iff _ _).mp h.1
    have htn := lowerChar_toNat_of_upper c h
    rw [isPySpace_eq_false_of_toNat _ (by omega),
      isPySpace_eq_false_of_toNat _ (by omega)]
  · rw [lowerChar, if_neg h]

theorem ne_space_of_isPySpace_false (c : Char) (h : isPySpace c = false) :
    c ≠ ' ' := by
  rintro rfl
  exact absurd h (by decide)

theorem cleanChar_not_space (c : Char) (h : isPySpace c = false) :
    isPySpace (cleanChar c) = false := by
  have hl : isPySpace (lowerChar c) = false := (isPySpace_lowerChar c).trans h
  have hne : lowerChar c ≠ ' ' := ne_space_of_isPySpace_false _ hl
  rw [cleanChar, replaceSpaceChar, if_neg (by simpa using hne)]
  exact hl

theorem cleanChar_idem (c : Char) : cleanChar (cleanChar c) = cleanChar c := by
  by_cases h : lowerChar c = ' '
  · have h1 : cleanChar c = '_' := by
      rw [cleanChar, replaceSpaceChar, if_pos (by simpa using h)]
    rw [h1]
    decide
  · have h1 : cleanChar c = lowerChar c := by
      rw [cleanChar, replaceSpaceChar, if_neg (by simpa using h)]
    rw [h1, cleanChar, lowerChar_idem, replaceSpaceChar, if_neg (by simpa using h)]

/-! ## List-level strip lemmas -/

theorem dropWhile_head?_false {α : Type} (p : α → Bool) :
    ∀ {l : List α} {c : α}, (l.dropWhile p).head? = some c → p c = false := by
  intro l
  induction l with
  | nil => intro c h; cases h
  | cons a t ih =>
    intro c h
    rw [List.dropWhile_cons] at h
    by_cases hp : p a
    · rw [if_pos hp] at h
      exact ih h
    · rw [if_neg hp] at h
      cases h
      simpa using hp

theorem getLast?_dropWhile {α : Type} (p : α → Bool) :
    ∀ {l : List α} {c : α}, (l.dropWhile p).getLast? = some c → l.getLast? = some c := by
  intro l
  induction l with
  | nil => intro c h; cases h
  | cons a t ih =>
    intro c h
    rw [List.dropWhile_cons] at h
    by_cases hp : p a
    · rw [if_pos hp] at h
      have ht := ih h
      cases t with
      | nil => cases ht
      | cons b t' => rwa [List.getLast?_cons_cons]
    · rwa [if_neg hp] at h

theorem dropWhile_eq_self_of_head {α : Type} (p : α → Bool) (l : List α)
    (h : ∀ c, l.head? = some c → p c = false) : l.dropWhile p = l := by
  cases l with
  | nil => rfl
  | cons a t =>
    rw [List.dropWhile_cons, if_neg]
    simp [h a rfl]

theorem stripL_head?_false {l : List Char} {c : Char}
    (h : (stripL l).head? = some c) : isPySpace c = false := by
  rw [stripL, List.head?_reverse] at h
  have h2 := getLast?_dropWhile isPySpace h
  rw [List.getLast?_reverse] at h2
  exact dropWhile_head?_false isPySpace h2

theorem stripL_getLast?_false {l : List Char} {c : Char}
    (h : (stripL l).getLast? = some c) : isPySpace c = false := by
  rw [stripL, List.getLast?_reverse] at h
  exact dropWhile_head?_false isPySpace h

theorem stripL_eq_self (l : List Char)
    (h1 : ∀ c, l.head? = some c → isPySpace c = false)
    (h2 : ∀ c, l.getLast? = some c → isPySpace c = false) : stripL l = l := by
  rw [stripL, dropWhile_eq_self_of_head isPySpace l h1,
    dropWhile_eq_self_of_head isPySpace l.reverse, List.reverse_reverse]
  intro c hc
  rw [List.head?_reverse] at hc
  exact h2 c hc

theorem stripL_map_cleanChar_stripL (l : List Char) :
    stripL ((stripL l).map cleanChar) = (stripL l).map cleanChar := by
  apply stripL_eq_self
  · intro c hc
    rw [List.head?_map] at hc
    rcases Option.map_eq_some'.mp hc with ⟨c0, hc0, rfl⟩
    exact cleanChar_not_space c0 (stripL_head?_false hc0)
  · intro c hc
    rw [List.getLast?_map] at hc
    rcases Option.map_eq_some'.mp hc with ⟨c0, hc0, rfl⟩
    exact cleanChar_not_space c0 (stripL_getLast?_false hc0)

/-- The composite character action of `cleanName` on the stripped list. -/
theorem cleanName_eq (s : String) :
    cleanName s = String.mk ((stripL s.data).map cleanChar) := by
  rw [cleanName, pyStrip, pyLower, replaceSpaces]
  simp [List.map_map]
  rfl

theorem cleanName_idem (s : String) : cleanName (cleanName s) = cleanName s := by
  rw [cleanName_eq s, cleanName_eq (String.mk ((stripL s.data).map cleanChar))]
  show String.mk ((stripL ((stripL s.data).map cleanChar)).map cleanChar) = _
  rw [stripL_map_cleanChar_stripL, List.map_map]
  congr 1
  exact List.map_congr_left (fun a _ => cleanChar_idem a)

/-! ## Data model: DataFrame as a Table of named columns of cells

A cell as read by pandas is either a missing-value sentinel (NaN), a raw
string, or (after coercion) a parsed date-time value.  The date-parsing
heuristic of pandas `to_datetime` is an external collaborator of the
source; it enters the embedding as a parameter `pd : String → Option Nat`
mapping a string to its parsed date-time (an abstract timestamp) or `none`
when parsing raises a value error. -/

inductive Cell : Type where
  | missing : Cell
  | str : String → Cell
  | date : Nat → Cell
deriving DecidableEq, Repr

structure Col : Type where
  name : String
  cells : List Cell
deriving DecidableEq, Repr

structure Table : Type where
  cols : List Col
deriving DecidableEq, Repr

/-- Column-name cleaning stage, source lines 18-22: every column name is
cleaned, cell data untouched. -/
def cleanColumns (t : Table) : Table :=
  ⟨t.cols.map fun c => ⟨cleanName c.name, c.cells⟩⟩

/-- Action of `fillna(\x22\x22)` on one cell: a missing sentinel becomes the
empty string, every other cell is unchanged. -/
def fillCell : Cell → Cell
  | Cell.missing => Cell.str ""
  | c => c

/-- Missing-value stage, source line 25: `df = df.fillna("")`, one global
pass over every cell of every column. -/
def fillna (t : Table) : Table :=
  ⟨t.cols.map fun c => ⟨c.name, c.cells.map fillCell⟩⟩

/-- Parsing one cell under `pd.to_datetime`: a string cell parses through
the heuristic `pd`; an already-parsed date stays; a missing sentinel does
not arise in the pipeline (it is modelled as a parse failure). -/
def cellParseDate (pd : String → Option Nat) : Cell → Option Nat
  | Cell.str s => pd s
  | Cell.date d => some d
  | Cell.missing => none

/-- All-or-nothing conversion of one single column, the effect one
iteration of the source's loop has on a column with a unique label:
either every cell parses and the column becomes dates, or the column is
returned unchanged (the raised value/type error is caught). -/
def coerceColumn (pd : String → Option Nat) (c : Col) : Col :=
  match c.cells.mapM (cellParseDate pd) with
  | some ds => ⟨c.name, ds.map Cell.date⟩
  | none => c

/-- The label-keyed selection `df[col]`: every column whose name equals
the label, in order.  With duplicated labels this is a multi-column
DataFrame, not a Series. -/
def selectCols (u : Table) (k : String) : List Col :=
  u.cols.filter (fun c => c.name == k)

/-- The label-keyed assignment `df[col] = cells`: every column carrying
the label receives the new cell values. -/
def setCol (u : Table) (k : String) (cells : List Cell) : Table :=
  ⟨u.cols.map fun c => if c.name == k then ⟨c.name, cells⟩ else c⟩

/-- One iteration of the coercion loop body, source lines 29-32:
`df[col] = pd.to_datetime(df[col])` keyed by the column label.  When the
label selects a single column, `to_datetime` either parses every cell and
the assignment stores the dates, or raises a value error, which the
`except` clause catches, leaving the table unchanged.  When the label is
duplicated, `df[col]` is a multi-column DataFrame and
`to_datetime(DataFrame)` raises a value error (it cannot assemble a date
from identically named columns), likewise caught: the table is unchanged
and the assignment never runs.  (The loop draws its labels from
`df.columns`, so an absent label does not arise.) -/
def toDatetimeStep (pd : String → Option Nat) (u : Table) (k : String) : Table :=
  match selectCols u k with
  | [c] =>
    match c.cells.mapM (cellParseDate pd) with
    | some ds => setCol u k (ds.map Cell.date)
    | none => u
  | _ => u

/-- The normalizer `clean_dataframe`, source lines 15-34: clean column
names, fill missing values, then run the date-coercion loop
`for col in df.columns: ...` over the column labels in order.  It is
total: no exception escapes it. -/
def clean_dataframe (pd : String → Option Nat) (t : Table) : Table :=
  ((fillna (cleanColumns t)).cols.map Col.name).foldl (toDatetimeStep pd)
    (fillna (cleanColumns t))

/-! ## Rename specification parsing -/

deriving instance DecidableEq for Except

/-- Python `str.strip().lower()` applied to a rename key (source line 44). -/
def cleanKey (s : String) : String := pyLower (pyStrip s)

/-- Split a character list on every occurrence of a separator character,
as Python `str.split(sep)` does for a one-character separator: splitting
the empty string gives one empty piece. -/
def splitChar (sep : Char) : List Char → List (List Char)
  | [] => [[]]
  | c :: rest =>
    match splitChar sep rest with
    | [] => [[c]]
    | h :: t => if c = sep then [] :: h :: t else (c :: h) :: t

/-- Python `str.split(sep)` for a one-character separator. -/
def pySplit (sep : Char) (s : String) : List String :=
  (splitChar sep s.data).map String.mk

/-- The pair list the source iterates over: `rename_str.split(",")`, guarded
by the truthiness test `if rename_str:` (an empty string yields no pairs). -/
def specPairs (s : String) : List String :=
  if s = "" then [] else pySplit ',' s

/-- Parsing one `old:new` pair, source lines 43-44.  `pair.split(":")` must
produce exactly two pieces, otherwise the tuple unpacking raises a
`ValueError` (the spec's FormatError), modelled as `Except.error`. -/
def parsePair (pair : String) : Except Unit (String × String) :=
  match pySplit ':' pair with
  | [old, new] => Except.ok (cleanKey old, pyStrip new)
  | _ => Except.error ()

/-- The source `parse_rename_columns`, lines 37-45: build the mapping pair
by pair; any malformed pair raises out of the function. -/
def parse_rename_columns (s : String) : Except Unit (List (String × String)) :=
  (specPairs s).mapM parsePair

/-- Python dict lookup on the built mapping: the last binding of a key wins
(later `rename_dict[key] = value` assignments overwrite earlier ones). -/
def dictLookup (m : List (String × String)) (k : String) : Option String :=
  (m.reverse.find? (fun p => p.1 == k)).map (fun p => p.2)

/-- The rename stage `df.rename(columns=rename_dict)`, source line 68:
relabel each column whose name is a key of the mapping; keys matching no
column are ignored; cells are untouched. -/
def renameTable (m : List (String × String)) (t : Table) : Table :=
  ⟨t.cols.map fun c => ⟨(dictLookup m c.name).getD c.name, c.cells⟩⟩

/-! ## Loader, writer and the conversion driver -/

/-- Shape of the input file as the CSV reader sees it. -/
inductive CsvFile : Type where
  | missing : CsvFile
  | empty : CsvFile
  | headerOnlyNoColumns : CsvFile
  | malformed : CsvFile
  | content : Table → CsvFile
deriving DecidableEq

/-- Outcome of the read attempt, mirroring the exceptions the source
catches at lines 53-61. -/
inductive LoadResult : Type where
  | ok : Table → LoadResult
  | notFound : LoadResult
  | emptyData : LoadResult
  | otherError : LoadResult
deriving DecidableEq

/-- Modelled from the spec: the Loader collaborator `pd.read_csv` is an
external library call; per the spec it raises FileNotFoundError for a
missing path, EmptyDataError when the file contains no parseable
rows/columns (fully empty or header-only with zero inferred columns), and
a generic parse error otherwise. -/
def read_csv : CsvFile → LoadResult
  | CsvFile.missing => LoadResult.notFound
  | CsvFile.empty => LoadResult.emptyData
  | CsvFile.headerOnlyNoColumns => LoadResult.emptyData
  | CsvFile.malformed => LoadResult.otherError
  | CsvFile.content t => LoadResult.ok t

/-- State of the file at the output path. -/
inductive OutFile : Type where
  | absent : OutFile
  | incomplete : OutFile
  | complete : Table → OutFile
deriving DecidableEq

/-- How the workbook write attempt behaves (the writer collaborator
`DataFrame.to_excel` is external: success, failure after the destination
file was created, or failure before anything was created). -/
inductive WriteBehavior : Type where
  | succeed : WriteBehavior
  | failAfterCreate : WriteBehavior
  | failBeforeCreate : WriteBehavior
deriving DecidableEq

/-- Modelled from the spec: the source writes directly to the destination
path (`df.to_excel(output_file, ...)`, line 72); per the spec's design
notes this direct write risks a corrupt/partial file on failure, so a
failure after file creation leaves an incomplete file in place. -/
def applyWrite (t : Table) (b : WriteBehavior) (prev : OutFile) : OutFile × Bool :=
  match b with
  | WriteBehavior.succeed => (OutFile.complete t, true)
  | WriteBehavior.failAfterCreate => (OutFile.incomplete, false)
  | WriteBehavior.failBeforeCreate => (prev, false)

/-- How `convert_csv_to_excel` terminates. -/
inductive ConvResult : Type where
  | written : Table → ConvResult
  | exitEarly : ConvResult
  | exitWriteFail : ConvResult
  | raised : ConvResult
deriving DecidableEq

/-- Process exit status of each outcome: `sys.exit(1)` for handled errors,
status 1 for an uncaught exception, 0 on success. -/
def exitCode : ConvResult → Nat
  | ConvResult.written _ => 0
  | ConvResult.exitEarly => 1
  | ConvResult.exitWriteFail => 1
  | ConvResult.raised => 1

/-- Python truthiness of the optional rename string (`if rename_str:`):
false for `None` and for the empty string. -/
def truthy : Option String → Bool
  | none => false
  | some s => s ≠ ""

/-- The source `convert_csv_to_excel`, lines 48-77: read the CSV (read
errors exit with status 1 before anything else happens), clean, optionally
parse the rename specification and rename (a malformed specification
raises out of the function, uncaught), then write the workbook (write
errors exit with status 1).  Returns the outcome and the state of the
output file. -/
def convert_csv_to_excel (pd : String → Option Nat) (file : CsvFile)
    (rename_str : Option String) (b : WriteBehavior) (prev : OutFile) :
    ConvResult × OutFile :=
  match read_csv file with
  | LoadResult.ok df0 =>
    let df1 := clean_dataframe pd df0
    if truthy rename_str then
      match parse_rename_columns (rename_str.getD "") with
      | Except.error _ => (ConvResult.raised, prev)
      | Except.ok m =>
        let df2 := renameTable m df1
        let (out, success) := applyWrite df2 b prev
        (if success then ConvResult.written df2 else ConvResult.exitWriteFail, out)
    else
      let (out, success) := applyWrite df1 b prev
      (if success then ConvResult.written df1 else ConvResult.exitWriteFail, out)
  | _ => (ConvResult.exitEarly, prev)

/-! ## CLI driver -/

/-- Python `pathlib.Path(name).suffix` for a file name: the final
extension including its dot, empty when the last dot is at position 0 or
at the very end or absent. -/
def pySuffix (name : String) : String :=
  let l := name.data
  let k := (l.reverse.takeWhile (fun c => c ≠ '.')).length
  if k = l.length then ""
  else
    let i := l.length - 1 - k
    if 0 < i ∧ i < l.length - 1 then String.mk (l.drop i) else ""

/-- File-system accesses the driver can perform. -/
inductive IOEvent : Type where
  | statInput : IOEvent
  | readInput : IOEvent
  | writeOutput : IOEvent
deriving DecidableEq

/-- File-system accesses performed inside `convert_csv_to_excel`: the read
is always attempted; the write is attempted unless the run ended before
reaching it. -/
def convertEvents : ConvResult → List IOEvent
  | ConvResult.written _ => [IOEvent.readInput, IOEvent.writeOutput]
  | ConvResult.exitWriteFail => [IOEvent.readInput, IOEvent.writeOutput]
  | ConvResult.exitEarly => [IOEvent.readInput]
  | ConvResult.raised => [IOEvent.readInput]

/-- Environment of one invocation: whether the input path exists, what the
reader finds there, and the prior state of the output path. -/
structure FS : Type where
  inputExists : Bool
  inputFile : CsvFile
  outFile : OutFile

/-- The source `main`, lines 80-119, after argument parsing: check that
the input path exists (a file-system stat), then check the output
extension, then run the conversion.  Returns the exit status, the list of
file-system accesses in order, and the final state of the output path. -/
def main (pd : String → Option Nat) (fs : FS) (outputPath : String)
    (rename_str : Option String) (b : WriteBehavior) :
    Nat × List IOEvent × OutFile :=
  if ¬ fs.inputExists then (1, [IOEvent.statInput], fs.outFile)
  else if pySuffix outputPath ≠ ".xlsx" then (1, [IOEvent.statInput], fs.outFile)
  else
    let (r, out) := convert_csv_to_excel pd fs.inputFile rename_str b fs.outFile
    (exitCode r, IOEvent.statInput :: convertEvents r, out)

/-! ## Helper lemmas about the pipeline -/

theorem mapM_option_eq_some {α β : Type} (f : α → Option β) (g : α → β) :
    ∀ (l : List α), (∀ a ∈ l, f a = some (g a)) → l.mapM f = some (l.map g) := by
  intro l
  induction l with
  | nil => intro _; rfl
  | cons a t ih =>
    intro h
    rw [List.mapM_cons, h a (List.mem_cons_self a t),
      ih (fun x hx => h x (List.mem_cons_of_mem a hx))]
    rfl

theorem mapM_option_eq_none {α β : Type} (f : α → Option β) :
    ∀ (l : List α), (∃ a ∈ l, f a = none) → l.mapM f = none := by
  intro l
  induction l with
  | nil => rintro ⟨a, ha, -⟩; cases ha
  | cons a t ih =>
    rintro ⟨x, hx, hfx⟩
    rw [List.mapM_cons]
    rcases List.mem_cons.mp hx with rfl | hx'
    · rw [hfx]; rfl
    · rw [ih ⟨x, hx', hfx⟩]
      cases f a <;> rfl

theorem mapM_except_eq_ok {α β : Type} (f : α → Except Unit β) (g : α → β) :
    ∀ (l : List α), (∀ a ∈ l, f a = Except.ok (g a)) →
      l.mapM f = Except.ok (l.map g) := by
  intro l
  induction l with
  | nil => intro _; rfl
  | cons a t ih =>
    intro h
    rw [List.mapM_cons, h a (List.mem_cons_self a t),
      ih (fun x hx => h x (List.mem_cons_of_mem a hx))]
    rfl

theorem mapM_except_eq_error {α β : Type} (f : α → Except Unit β) :
    ∀ (l : List α), (∃ a ∈ l, f a = Except.error ()) →
      l.mapM f = Except.error () := by
  intro l
  induction l with
  | nil => rintro ⟨a, ha, -⟩; cases ha
  | cons a t ih =>
    rintro ⟨x, hx, hfx⟩
    rw [List.mapM_cons]
    rcases List.mem_cons.mp hx with rfl | hx'
    · rw [hfx]; rfl
    · cases hfa : f a
      · rfl
      · rw [ih ⟨x, hx', hfx⟩]
        rfl

theorem coerceColumn_name (pd : String → Option Nat) (c : Col) :
    (coerceColumn pd c).name = c.name := by
  unfold coerceColumn
  split <;> rfl

theorem coerceColumn_no_missing (pd : String → Option Nat) (c : Col)
    (h : ∀ cell ∈ c.cells, cell ≠ Cell.missing) :
    ∀ cell ∈ (coerceColumn pd c).cells, cell ≠ Cell.missing := by
  unfold coerceColumn
  split
  · intro cell hcell
    rcases List.mem_map.mp hcell with ⟨d, -, rfl⟩
    simp
  · exact h

theorem toDatetimeStep_names (pd : String → Option Nat) (u : Table) (k : String) :
    (toDatetimeStep pd u k).cols.map Col.name = u.cols.map Col.name := by
  cases hsel : selectCols u k with
  | nil => simp only [toDatetimeStep, hsel]
  | cons c tail =>
    cases tail with
    | cons c2 t2 => simp only [toDatetimeStep, hsel]
    | nil =>
      cases hm : c.cells.mapM (cellParseDate pd) with
      | none => simp only [toDatetimeStep, hsel, hm]
      | some ds =>
        simp only [toDatetimeStep, hsel, hm, setCol, List.map_map]
        apply List.map_congr_left
        intro x _
        by_cases hx : x.name == k <;> simp [Function.comp, hx]

theorem foldl_step_names (pd : String → Option Nat) :
    ∀ (ns : List String) (u : Table),
      ((ns.foldl (toDatetimeStep pd) u).cols.map Col.name) = u.cols.map Col.name := by
  intro ns
  induction ns with
  | nil => intro u; rfl
  | cons k ns ih =>
    intro u
    rw [List.foldl_cons, ih, toDatetimeStep_names]

theorem toDatetimeStep_no_missing (pd : String → Option Nat) (u : Table)
    (k : String) (h : ∀ col ∈ u.cols, ∀ cell ∈ col.cells, cell ≠ Cell.missing) :
    ∀ col ∈ (toDatetimeStep pd u k).cols, ∀ cell ∈ col.cells,
      cell ≠ Cell.missing := by
  cases hsel : selectCols u k with
  | nil => simpa only [toDatetimeStep, hsel] using h
  | cons c tail =>
    cases tail with
    | cons c2 t2 => simpa only [toDatetimeStep, hsel] using h
    | nil =>
      cases hm : c.cells.mapM (cellParseDate pd) with
      | none => simpa only [toDatetimeStep, hsel, hm] using h
      | some ds =>
        simp only [toDatetimeStep, hsel, hm, setCol]
        intro col hcol cell hcell
        rcases List.mem_map.mp hcol with ⟨x, hx, rfl⟩
        by_cases hxk : x.name == k
        · rw [if_pos hxk] at hcell
          rcases List.mem_map.mp hcell with ⟨d, -, rfl⟩
          simp
        · rw [if_neg hxk] at hcell
          exact h x hx cell hcell

theorem foldl_step_no_missing (pd : String → Option Nat) :
    ∀ (ns : List String) (u : Table),
      (∀ col ∈ u.cols, ∀ cell ∈ col.cells, cell ≠ Cell.missing) →
      ∀ col ∈ (ns.foldl (toDatetimeStep pd) u).cols, ∀ cell ∈ col.cells,
        cell ≠ Cell.missing := by
  intro ns
  induction ns with
  | nil => intro u h; exact h
  | cons k ns ih =>
    intro u h
    rw [List.foldl_cons]
    exact ih _ (toDatetimeStep_no_missing pd u k h)

theorem toDatetimeStep_eq (pd : String → Option Nat) (u : Table) (k : String)
    (hnodup : (u.cols.map Col.name).Nodup) :
    toDatetimeStep pd u k
      = ⟨u.cols.map fun c => if c.name = k then coerceColumn pd c else c⟩ := by
  cases hsel : selectCols u k with
  | nil =>
    have hnone : ∀ c ∈ u.cols, c.name ≠ k := by
      intro c hc hck
      have hmem : c ∈ selectCols u k :=
        List.mem_filter.mpr ⟨hc, by simp [hck]⟩
      rw [hsel] at hmem
      cases hmem
    have hmapid : u.cols.map
        (fun c => if c.name = k then coerceColumn pd c else c) = u.cols :=
      (List.map_congr_left fun c hc => if_neg (hnone c hc)).trans (List.map_id _)
    simp only [toDatetimeStep, hsel, hmapid]
  | cons c tail =>
    cases tail with
    | cons c2 t2 =>
      exfalso
      have hlen : 2 ≤ (u.cols.filter (fun c => c.name == k)).length := by
        have hs : u.cols.filter (fun c => c.name == k) = c :: c2 :: t2 := hsel
        rw [hs]
        simp only [List.length_cons]
        omega
      have hcount : (u.cols.map Col.name).count k
          = (u.cols.filter (fun c => c.name == k)).length := by
        show (u.cols.map Col.name).countP (· == k) = _
        rw [List.countP_map, List.countP_eq_length_filter]
        rfl
      have hle := List.nodup_iff_count_le_one.mp hnodup k
      omega
    | nil =>
      have hcsel : c ∈ selectCols u k := by
        rw [hsel]
        exact List.mem_cons_self c []
      unfold selectCols at hcsel
      have hcmem : c ∈ u.cols ∧ (c.name == k) = true :=
        List.mem_filter.mp hcsel
      have hck : c.name = k := by simpa using hcmem.2
      have huniq : ∀ c' ∈ u.cols, c'.name = k → c' = c := by
        intro c' hc' hck'
        have hmem : c' ∈ selectCols u k :=
          List.mem_filter.mpr ⟨hc', by simp [hck']⟩
        rw [hsel] at hmem
        simpa using hmem
      cases hm : c.cells.mapM (cellParseDate pd) with
      | some ds =>
        simp only [toDatetimeStep, hsel, hm, setCol]
        congr 1
        apply List.map_congr_left
        intro x hx
        by_cases hxk : x.name = k
        · rw [if_pos (by simp [hxk]), if_pos hxk]
          have hxc : x = c := huniq x hx hxk
          subst hxc
          unfold coerceColumn
          rw [hm]
        · rw [if_neg (by simp [hxk]), if_neg hxk]
      | none =>
        have hmapid : u.cols.map
            (fun x => if x.name = k then coerceColumn pd x else x) = u.cols := by
          refine (List.map_congr_left ?_).trans (List.map_id _)
          intro x hx
          by_cases hxk : x.name = k
          · rw [if_pos hxk]
            have hxc : x = c := huniq x hx hxk
            subst hxc
            unfold coerceColumn
            rw [hm]
            rfl
          · rw [if_neg hxk]
            rfl
        simp only [toDatetimeStep, hsel, hm, hmapid]

theorem foldl_toDatetimeStep_eq (pd : String → Option Nat) :
    ∀ (ns : List String) (u : Table),
      (u.cols.map Col.name).Nodup → ns.Nodup →
      ns.foldl (toDatetimeStep pd) u
        = ⟨u.cols.map fun c => if c.name ∈ ns then coerceColumn pd c else c⟩ := by
  intro ns
  induction ns with
  | nil =>
    intro u _ _
    have hmapid : u.cols.map
        (fun c => if c.name ∈ ([] : List String) then coerceColumn pd c else c)
          = u.cols := by
      refine (List.map_congr_left ?_).trans (List.map_id _)
      intro x _
      rw [if_neg (by simp)]
      rfl
    show u = _
    rw [hmapid]
  | cons k ns ih =>
    intro u hu hns
    rw [List.foldl_cons, toDatetimeStep_eq pd u k hu]
    have hnames : ((⟨u.cols.map fun c => if c.name = k then coerceColumn pd c
        else c⟩ : Table).cols.map Col.name) = u.cols.map Col.name := by
      show (u.cols.map _).map Col.name = _
      rw [List.map_map]
      apply List.map_congr_left
      intro x _
      by_cases hxk : x.name = k
      · simp [Function.comp, hxk, coerceColumn_name]
      · simp [Function.comp, hxk]
    have hk_not : k ∉ ns := (List.nodup_cons.mp hns).1
    rw [ih _ (by rw [hnames]; exact hu) (List.nodup_cons.mp hns).2]
    congr 1
    show (u.cols.map _).map _ = _
    rw [List.map_map]
    apply List.map_congr_left
    intro x _
    by_cases hxk : x.name = k
    · simp only [Function.comp, if_pos hxk]
      rw [if_neg (by rw [coerceColumn_name, hxk]; exact hk_not),
        if_pos (by rw [hxk]; exact List.mem_cons_self k ns)]
    · simp only [Function.comp, if_neg hxk]
      by_cases hxns : x.name ∈ ns
      · rw [if_pos hxns, if_pos (List.mem_cons_of_mem k hxns)]
      · rw [if_neg hxns, if_neg (by simp [hxk, hxns])]

theorem clean_dataframe_eq_map (pd : String → Option Nat) (t : Table)
    (hnodup : ((fillna (cleanColumns t)).cols.map Col.name).Nodup) :
    clean_dataframe pd t
      = ⟨(fillna (cleanColumns t)).cols.map (coerceColumn pd)⟩ := by
  unfold clean_dataframe
  rw [foldl_toDatetimeStep_eq pd _ _ hnodup hnodup]
  congr 1
  apply List.map_congr_left
  intro c hc
  rw [if_pos (List.mem_map_of_mem Col.name hc)]

/-- Sample date-parsing heuristic used to instantiate theorems at concrete
inputs: it recognises exactly the string 2020-01-01. -/
def samplePd : String → Option Nat :=
  fun s => if s = "2020-01-01" then some 18262 else none

/-- Sample raw table with one all-dates column and one non-date column. -/
def sampleTable : Table :=
  ⟨[⟨"D", [Cell.str "2020-01-01"]⟩, ⟨"E", [Cell.str "x"]⟩]⟩

/-! ## Claim theorems -/

/-- Table whose two raw headers collide after cleaning: Date and
date-with-trailing-space both clean to date, every cell a parseable date
string. -/
def collisionTable : Table :=
  ⟨[⟨"Date", [Cell.str "2020-01-01"]⟩, ⟨"date ", [Cell.str "2020-01-01"]⟩]⟩

/-- C1 counterexample: with raw headers Date and date-plus-space both
cleaning to date, the post-fill column at position 0 consists solely of
cells that parse under the heuristic, yet the normalizer leaves it as
strings instead of replacing it with the parsed date values: the
label-keyed `df[col]` selects both columns at once, `to_datetime` raises,
the except clause catches, and no coercion happens — refuting the
claim's every-cell-parses arm as universally stated. -/
theorem dateCoercion_collision_counterexample :
    (fillna (cleanColumns collisionTable)).cols[0]?
        = some ⟨"date", [Cell.str "2020-01-01"]⟩
    ∧ (∀ cell ∈ [Cell.str "2020-01-01"], (cellParseDate samplePd cell).isSome = true)
    ∧ (clean_dataframe samplePd collisionTable).cols[0]?
        = some ⟨"date", [Cell.str "2020-01-01"]⟩
    ∧ ¬ ((clean_dataframe samplePd collisionTable).cols[0]?
        = some ⟨"date", [Cell.str "2020-01-01"].map fun cell =>
            Cell.date ((cellParseDate samplePd cell).getD 0)⟩) :=
  ⟨by decide, by decide, by decide, by decide⟩

/-- C1 amended: date coercion is all-or-nothing per column on every table
whose cleaned column names are pairwise distinct (with duplicated cleaned
names — the collision edge case the spec flags separately — the
label-keyed `df[col]` selection returns a multi-column frame, to_datetime
raises, the except catches it, and the affected columns stay uncoerced).
For every column position of the post-missing-value-fill table, if every
cell parses under the date heuristic the whole column is replaced by the
parsed date values; if some cell fails to parse the column keeps exactly
its post-fill value.  The failure is handled inside `toDatetimeStep` (the
try/except of the source's loop) and `clean_dataframe` is a total
function: no error propagates to its caller. -/
theorem dateCoercion_allOrNothing (pd : String → Option Nat) (t : Table)
    (i : Nat) (pre : Col)
    (hnodup : ((fillna (cleanColumns t)).cols.map Col.name).Nodup)
    (hpre : ((fillna (cleanColumns t)).cols)[i]? = some pre) :
    ((∀ cell ∈ pre.cells, (cellParseDate pd cell).isSome = true) →
      (clean_dataframe pd t).cols[i]? =
        some ⟨pre.name, pre.cells.map fun cell =>
          Cell.date ((cellParseDate pd cell).getD 0)⟩)
    ∧ ((∃ cell ∈ pre.cells, cellParseDate pd cell = none) →
      (clean_dataframe pd t).cols[i]? = some pre) := by
  have hmap : (clean_dataframe pd t).cols[i]? = some (coerceColumn pd pre) := by
    rw [clean_dataframe_eq_map pd t hnodup]
    show ((fillna (cleanColumns t)).cols.map (coerceColumn pd))[i]? = _
    rw [List.getElem?_map, hpre]
    rfl
  constructor
  · intro hall
    rw [hmap]
    have hsome : pre.cells.mapM (cellParseDate pd)
        = some (pre.cells.map fun cell => (cellParseDate pd cell).getD 0) := by
      apply mapM_option_eq_some
      intro a ha
      rcases Option.isSome_iff_exists.mp (hall a ha) with ⟨d, hd⟩
      rw [hd]
      simp [hd]
    unfold coerceColumn
    rw [hsome]
    simp [List.map_map]
  · intro hex
    rw [hmap]
    unfold coerceColumn
    rw [mapM_option_eq_none _ _ hex]

/-- C1 witness: on a concrete table through the concrete heuristic, the
all-dates column is coerced and the column with a non-date cell is left
at its post-fill value. -/
theorem dateCoercion_allOrNothing_witness :
    (clean_dataframe samplePd sampleTable).cols[0]? = some ⟨"d", [Cell.date 18262]⟩
    ∧ (clean_dataframe samplePd sampleTable).cols[1]? = some ⟨"e", [Cell.str "x"]⟩ := by
  have h1 := (dateCoercion_allOrNothing samplePd sampleTable 0
    ⟨"d", [Cell.str "2020-01-01"]⟩ (by decide) (by decide)).1 (by decide)
  have h2 := (dateCoercion_allOrNothing samplePd sampleTable 1
    ⟨"e", [Cell.str "x"]⟩ (by decide) (by decide)).2 ⟨Cell.str "x", by decide, by decide⟩
  constructor
  · rw [h1]; decide
  · rw [h2]

/-- C2: column-name cleaning maps every column name through exactly
strip, then lowercase, then replace-spaces-by-underscores, is applied to
all columns unconditionally, preserves column order (the name list is the
pointwise image of the original name list, here stated across the whole
normalizer, whose later stages keep names), and does not touch cells. -/
theorem columnNameCleaning (pd : String → Option Nat) (t : Table) :
    (clean_dataframe pd t).cols.map Col.name
        = t.cols.map (fun c => replaceSpaces (pyLower (pyStrip c.name)))
    ∧ (cleanColumns t).cols.map Col.name = t.cols.map (fun c => cleanName c.name)
    ∧ (cleanColumns t).cols.map Col.cells = t.cols.map Col.cells := by
  refine ⟨?_, ?_, ?_⟩
  · show (((fillna (cleanColumns t)).cols.map Col.name).foldl (toDatetimeStep pd)
        (fillna (cleanColumns t))).cols.map Col.name = _
    rw [foldl_step_names]
    unfold fillna cleanColumns
    simp only [List.map_map]
    apply List.map_congr_left
    intro c _
    rfl
  · unfold cleanColumns
    rw [List.map_map]
    rfl
  · unfold cleanColumns
    rw [List.map_map]
    rfl

/-- C5: the missing-value stage replaces exactly the missing sentinels,
each by the empty string, in one pass over the whole table placed between
column-name cleaning and date coercion; after it (and so in the whole
normalizer's output, since coercion never produces a sentinel) no cell
holds a missing sentinel. -/
theorem missingValueFill (pd : String → Option Nat) (t : Table) :
    fillCell Cell.missing = Cell.str ""
    ∧ (∀ c, c ≠ Cell.missing → fillCell c = c)
    ∧ ((fillna (cleanColumns t)).cols.map Col.cells
        = (cleanColumns t).cols.map (fun c => c.cells.map fillCell))
    ∧ (∀ col ∈ (fillna (cleanColumns t)).cols, ∀ cell ∈ col.cells,
        cell ≠ Cell.missing)
    ∧ (∀ col ∈ (clean_dataframe pd t).cols, ∀ cell ∈ col.cells,
        cell ≠ Cell.missing) := by
  have hfill : ∀ (u : Table), ∀ col ∈ (fillna u).cols, ∀ cell ∈ col.cells,
      cell ≠ Cell.missing := by
    intro u col hcol cell hcell
    rcases List.mem_map.mp hcol with ⟨c, -, rfl⟩
    rcases List.mem_map.mp hcell with ⟨x, -, rfl⟩
    cases x <;> simp [fillCell]
  refine ⟨rfl, ?_, ?_, hfill _, ?_⟩
  · intro c hc
    cases c
    · exact absurd rfl hc
    · rfl
    · rfl
  · unfold fillna
    rw [List.map_map]
    rfl
  · exact foldl_step_no_missing pd _ _ (hfill _)

/-- C5 witness: in the concrete filled table a missing sentinel has become
the empty string, which is not the sentinel. -/
theorem missingValueFill_witness : Cell.str "" ≠ Cell.missing := by
  have h := (missingValueFill samplePd ⟨[⟨"A", [Cell.missing]⟩]⟩).2.2.2.1
  exact h ⟨"a", [Cell.str ""]⟩ (by decide) (Cell.str "") (by decide)

/-- C9: column-name cleaning is idempotent at the table level: applying
the cleaning stage twice equals applying it once. -/
theorem cleaningIdempotent (t : Table) :
    cleanColumns (cleanColumns t) = cleanColumns t := by
  unfold cleanColumns
  simp only [List.map_map]
  congr 1
  apply List.map_congr_left
  intro c _
  simp [Function.comp, cleanName_idem]

theorem parsePair_error_of_length {pair : String}
    (h : (pySplit ':' pair).length ≠ 2) : parsePair pair = Except.error () := by
  unfold parsePair
  cases hl : pySplit ':' pair with
  | nil => rfl
  | cons a l2 =>
    cases l2 with
    | nil => rfl
    | cons b l3 =>
      cases l3 with
      | nil => exact absurd (by rw [hl]; rfl) h
      | cons c l4 => rfl

/-- C3: a rename specification with a pair lacking exactly one colon fails
to parse (the tuple unpacking raises, modelled by `Except.error`), the
error propagates out of `convert_csv_to_excel` uncaught (outcome
`raised`, exit status 1), and the output path is untouched: the write
stage is never reached, so no output file is created. -/
theorem malformedRenameSpecAborts (pd : String → Option Nat) (t : Table)
    (b : WriteBehavior) (prev : OutFile) (s : String)
    (hbad : ∃ pair ∈ specPairs s, (pySplit ':' pair).length ≠ 2) :
    parse_rename_columns s = Except.error ()
    ∧ convert_csv_to_excel pd (CsvFile.content t) (some s) b prev
        = (ConvResult.raised, prev)
    ∧ exitCode ConvResult.raised = 1 := by
  have hs : s ≠ "" := by
    rintro rfl
    rcases hbad with ⟨pair, hpair, -⟩
    simp [specPairs] at hpair
  have hperr : parse_rename_columns s = Except.error () := by
    unfold parse_rename_columns
    apply mapM_except_eq_error
    rcases hbad with ⟨pair, hpair, hlen⟩
    exact ⟨pair, hpair, parsePair_error_of_length hlen⟩
  refine ⟨hperr, ?_, rfl⟩
  unfold convert_csv_to_excel
  have htr : truthy (some s) = true := by simp [truthy, hs]
  simp only [read_csv, htr, if_pos, Option.getD_some, hperr]

/-- C3 witness: the spec string a-b,c:d (first pair missing the colon)
makes parsing fail and the whole conversion abort with no file written. -/
theorem malformedRenameSpecAborts_witness :
    parse_rename_columns "a-b,c:d" = Except.error ()
    ∧ convert_csv_to_excel samplePd (CsvFile.content sampleTable)
        (some "a-b,c:d") WriteBehavior.succeed OutFile.absent
      = (ConvResult.raised, OutFile.absent)
    ∧ exitCode ConvResult.raised = 1 :=
  malformedRenameSpecAborts samplePd sampleTable WriteBehavior.succeed
    OutFile.absent "a-b,c:d" ⟨"a-b", by decide, by decide⟩

/-- C4: a well-formed rename specification parses to the comma-separated
pairs with each old key stripped and lowercased and each new name
stripped verbatim; the empty specification parses to the empty mapping;
and on the cleaned columns full_name, dob the specification
Full_Name:Name renames exactly the matching column, giving Name, dob. -/
theorem renameSpecParsing (s : String)
    (hwf : ∀ pair ∈ specPairs s, (pySplit ':' pair).length = 2) :
    parse_rename_columns s
        = Except.ok ((specPairs s).map fun pair =>
            (cleanKey ((pySplit ':' pair).getD 0 ""),
             pyStrip ((pySplit ':' pair).getD 1 "")))
    ∧ parse_rename_columns "" = Except.ok []
    ∧ parse_rename_columns "Full_Name:Name" = Except.ok [("full_name", "Name")]
    ∧ renameTable [("full_name", "Name")]
          ⟨[⟨"full_name", [Cell.str "Alice"]⟩, ⟨"dob", [Cell.str "2020-01-01"]⟩]⟩
        = ⟨[⟨"Name", [Cell.str "Alice"]⟩, ⟨"dob", [Cell.str "2020-01-01"]⟩]⟩ := by
  refine ⟨?_, by decide, by decide, by decide⟩
  unfold parse_rename_columns
  apply mapM_except_eq_ok
  intro pair hpair
  have hlen := hwf pair hpair
  cases hl : pySplit ':' pair with
  | nil => rw [hl] at hlen; cases hlen
  | cons a l2 =>
    cases l2 with
    | nil => rw [hl] at hlen; cases hlen
    | cons b l3 =>
      cases l3 with
      | nil => unfold parsePair; rw [hl]; rfl
      | cons c l4 => rw [hl] at hlen; cases hlen

/-- C4 witness: the sample specification of the spec parses to the
expected mapping. -/
theorem renameSpecParsing_witness :
    parse_rename_columns "full_name:name,dob:date_of_birth"
      = Except.ok [("full_name", "name"), ("dob", "date_of_birth")] := by
  have h := (renameSpecParsing "full_name:name,dob:date_of_birth" (by decide)).1
  rw [h]
  decide

/-- C6: a file with no parseable rows or columns (fully empty, or
header-only with zero inferred columns) makes the load fail with the
empty-data error; `convert_csv_to_excel` catches it and exits with status
1 before the write stage, so the output path is untouched. -/
theorem emptyInputAborts (pd : String → Option Nat) (f : CsvFile)
    (r : Option String) (b : WriteBehavior) (prev : OutFile)
    (h : f = CsvFile.empty ∨ f = CsvFile.headerOnlyNoColumns) :
    read_csv f = LoadResult.emptyData
    ∧ convert_csv_to_excel pd f r b prev = (ConvResult.exitEarly, prev)
    ∧ exitCode ConvResult.exitEarly = 1 := by
  rcases h with rfl | rfl <;> exact ⟨rfl, rfl, rfl⟩

/-- C6 witness: the zero-byte file aborts the conversion with exit status
1 and an untouched output path. -/
theorem emptyInputAborts_witness :
    read_csv CsvFile.empty = LoadResult.emptyData
    ∧ convert_csv_to_excel samplePd CsvFile.empty none WriteBehavior.succeed
        OutFile.absent = (ConvResult.exitEarly, OutFile.absent)
    ∧ exitCode ConvResult.exitEarly = 1 :=
  emptyInputAborts samplePd CsvFile.empty none WriteBehavior.succeed
    OutFile.absent (Or.inl rfl)

/-- C7 (code bug): the source writes the workbook directly to the
destination path; when the write fails after the file was created, the
process exits with status 1 as the claim says, but an incomplete file is
left at the output path where none existed before, contradicting the
claim that a failed write leaves no new file. -/
theorem writeFailureLeavesPartialFile :
    convert_csv_to_excel (fun _ => none) (CsvFile.content ⟨[⟨"a", [Cell.str "x"]⟩]⟩)
        none WriteBehavior.failAfterCreate OutFile.absent
      = (ConvResult.exitWriteFail, OutFile.incomplete)
    ∧ exitCode ConvResult.exitWriteFail = 1
    ∧ OutFile.incomplete ≠ OutFile.absent := by
  exact ⟨by decide, rfl, by decide⟩

/-- C8 counterexample: on an invocation with output path report.csv, the
driver's very first action is the input-path existence check, a
file-system access, so the trace at the moment of rejection is not empty:
some file I/O does occur before the extension abort, refuting the claim
that the rejection precedes any file I/O. -/
theorem wrongExtensionStatsInputFirst :
    main (fun _ => none) ⟨true, CsvFile.content ⟨[]⟩, OutFile.absent⟩
        "report.csv" none WriteBehavior.succeed
      = (1, [IOEvent.statInput], OutFile.absent)
    ∧ [IOEvent.statInput] ≠ ([] : List IOEvent) := by
  exact ⟨by decide, by decide⟩

/-- C8 amended: an output path not ending in .xlsx makes the driver abort
with exit status 1 before any processing; the input CSV is never read and
the output path is untouched; the only file-system access preceding the
rejection is the input-path existence check, which the source performs
first. -/
theorem wrongExtensionRejected (pd : String → Option Nat) (fs : FS)
    (out : String) (r : Option String) (b : WriteBehavior)
    (hsuf : pySuffix out ≠ ".xlsx") :
    main pd fs out r b = (1, [IOEvent.statInput], fs.outFile)
    ∧ IOEvent.readInput ∉ [IOEvent.statInput]
    ∧ IOEvent.writeOutput ∉ [IOEvent.statInput] := by
  refine ⟨?_, by decide, by decide⟩
  unfold main
  by_cases hin : fs.inputExists
  · simp [hin, hsuf]
  · simp [hin]

/-- C8 amended witness: the wrong-extension invocation of the
counterexample aborts with exit 1, an unread input and an untouched
output path. -/
theorem wrongExtensionRejected_witness :
    main samplePd ⟨true, CsvFile.content sampleTable, OutFile.absent⟩
        "report.csv" none WriteBehavior.succeed
      = (1, [IOEvent.statInput], OutFile.absent) := by
  have h := (wrongExtensionRejected samplePd
    ⟨true, CsvFile.content sampleTable, OutFile.absent⟩
    "report.csv" none WriteBehavior.succeed (by decide)).1
  exact h

/-- C10: applying a rename mapping is total and only relabels headers:
the column count is preserved, and the column at every position keeps its
cells and its position, its new name being the mapping's value when its
name is a key and its old name otherwise (keys matching no column are
silently ignored). -/
theorem renameFrameEffect (m : List (String × String)) (t : Table)
    (i : Nat) (c : Col) (h : t.cols[i]? = some c) :
    (renameTable m t).cols.length = t.cols.length
    ∧ (renameTable m t).cols[i]?
        = some ⟨(dictLookup m c.name).getD c.name, c.cells⟩ := by
  constructor
  · show (t.cols.map _).length = _
    rw [List.length_map]
  · show (t.cols.map _)[i]? = _
    rw [List.getElem?_map, h]
    rfl

/-- C10 witness: a mapping with one matching and one unmatched key
relabels the matching column, keeps all cells, and raises no error. -/
theorem renameFrameEffect_witness :
    (renameTable [("zzz", "q"), ("e", "E2")] ⟨[⟨"d", [Cell.date 18262]⟩,
        ⟨"e", [Cell.str "x"]⟩]⟩).cols.length = 2
    ∧ (renameTable [("zzz", "q"), ("e", "E2")] ⟨[⟨"d", [Cell.date 18262]⟩,
        ⟨"e", [Cell.str "x"]⟩]⟩).cols[0]? = some ⟨"d", [Cell.date 18262]⟩ := by
  have h := renameFrameEffect [("zzz", "q"), ("e", "E2")]
    ⟨[⟨"d", [Cell.date 18262]⟩, ⟨"e", [Cell.str "x"]⟩]⟩ 0
    ⟨"d", [Cell.date 18262]⟩ (by decide)
  refine ⟨h.1, ?_⟩
  rw [h.2]
  decide

end CsvToExcel
